import Mathlib

set_option maxHeartbeats 1000000
set_option maxRecDepth 4096

/-!
Verification development for a retrieval-augmented question-answering
assistant over a university prospectus.  The backend pipeline (query
expansion, multi-query retrieval with deduplication, lexical re-ranking,
domain guardrail, orchestration, HTTP boundary) is embedded shallowly:
pure Python functions become Lean functions, the external vector index and
the external language model become function parameters, Python exceptions
become `Except` values.  Python `str.lower`, `str.strip`, `str.split`,
substring tests and list slicing are modelled by their character-list
counterparts.
-/

namespace UET

/-- Model of the Python substring test `needle in hay` on strings:
character-list containment. -/
def substr (needle hay : String) : Bool :=
  decide (needle.data <:+: hay.data)

/-- Model of Python `s.startswith(g)`: `g` is a character-level initial
segment of `s`. -/
def startswith (g s : String) : Bool :=
  decide (g.data <+: s.data)

/-- Model of Python `s.lower()`: lowercase every character.  Defined over
the character list so that the kernel can evaluate it (the corresponding
core function recurses on byte positions). -/
def pyLower (s : String) : String :=
  String.mk (s.data.map Char.toLower)

/-- Model of Python `s.strip()`: drop whitespace from both ends. -/
def pyTrim (s : String) : String :=
  String.mk
    (((s.data.dropWhile Char.isWhitespace).reverse.dropWhile
        Char.isWhitespace).reverse)

/-- Model of Python slicing `s[:n]` on a string. -/
def pyTake (s : String) (n : Nat) : String :=
  String.mk (s.data.take n)

/-- Recursion of `pySplit`: walk the characters, `cur` holds the current
word reversed. -/
def wordsAux : List Char → List Char → List String
  | [], cur => if cur.isEmpty then [] else [String.mk cur.reverse]
  | c :: cs, cur =>
    if c.isWhitespace then
      if cur.isEmpty then wordsAux cs []
      else String.mk cur.reverse :: wordsAux cs []
    else wordsAux cs (c :: cur)

/-- Model of Python `s.split()` with no arguments: split on whitespace
runs, dropping empty pieces. -/
def pySplit (s : String) : List String :=
  wordsAux s.data []

/-- Model of Python `sep.join(l)`. -/
def pyJoin (sep : String) : List String → String
  | [] => ""
  | [x] => x
  | x :: y :: rest => x ++ sep ++ pyJoin sep (y :: rest)

/-- Auxiliary recursion of `pyDedup` carrying the set of already seen
elements. -/
def pyDedupAux : List String → List String → List String
  | [], _ => []
  | x :: xs, seen =>
    if x ∈ seen then pyDedupAux xs seen
    else x :: pyDedupAux xs (x :: seen)

/-- Model of Python `list(dict.fromkeys(l))`: deduplication keeping the
first occurrence of each element, preserving first-seen order. -/
def pyDedup (l : List String) : List String :=
  pyDedupAux l []

/-- Document chunk as returned by the vector store: page text plus the
metadata keys written during ingestion.  Metadata values are modelled as
optional strings; `none` models an absent dictionary key, and each read
site applies the default used at that site in the source. -/
structure Doc where
  page_content : String
  departments : Option String
  section_type : Option String
  page : Option String
deriving DecidableEq

/-- Source descriptor appearing in the `sources` list of a search result;
`sectionTag` models the dictionary key named `section` in the source
(`section` is a Lean keyword). -/
structure SourceInfo where
  page : String
  department : String
  sectionTag : String
deriving DecidableEq

/-- Aggregate returned by `search_prospectus`.  The Python function returns
a dictionary; the `doc_count` key is present only on the success path,
modelled by `Option Nat`. -/
structure SearchResult where
  found : Bool
  context : String
  sources : List SourceInfo
  doc_count : Option Nat
deriving DecidableEq

/-- Trigger words of the faculty/chairperson branch of `expand_query`. -/
def facultyTriggerWords : List String :=
  ["chairperson", "chair person", "head of department", "hod", "dean",
   "faculty", "professor", "lecturer"]

/-- Department list scanned by the faculty branch of `expand_query`. -/
def expandDepts : List String :=
  ["mathematics", "computer science", "electrical", "mechanical", "civil",
   "chemical", "industrial", "architecture", "city planning",
   "regional planning"]

/-- Trigger words of the program branch of `expand_query`. -/
def programTriggerWords : List String :=
  ["m.sc", "msc", "phd", "bachelor", "master", "program", "degree"]

/-- Program list scanned by the program branch of `expand_query`. -/
def expandPrograms : List String :=
  ["artificial intelligence", "ai", "mining engineering", "transportation",
   "geological engineering", "geotechnical"]

/-- Trigger words of the admission branch of `expand_query`. -/
def admissionTriggerWords : List String :=
  ["admission", "apply", "eligibility", "requirement"]

/-- Candidate query list assembled by `expand_query` before deduplication
and truncation, in the order the Python code appends them. -/
def expandCandidates (original_query : String) : List String :=
  let query_lower := pyLower original_query
  original_query ::
  ((if facultyTriggerWords.any (fun w => substr w query_lower) then
      ["faculty list " ++ original_query, "staff members " ++ original_query]
      ++ (match expandDepts.find? (fun d => substr d query_lower) with
          | some d => [d ++ " department faculty", d ++ " chairperson head"]
          | none => [])
    else [])
   ++ (if programTriggerWords.any (fun w => substr w query_lower) then
        ["program offered by department " ++ original_query]
        ++ (match expandPrograms.find? (fun p => substr p query_lower) with
            | some p => [p ++ " program department"]
            | none => [])
      else [])
   ++ (if admissionTriggerWords.any (fun w => substr w query_lower) then
        ["admission requirements " ++ original_query,
         "eligibility criteria " ++ original_query]
      else [])
   ++ (if substr "transportation" query_lower then
        ["civil engineering transportation",
         "transportation engineering department"]
      else [])
   ++ (if substr "geological" query_lower || substr "geotechnical" query_lower then
        ["mining geological engineering", "civil geotechnical engineering"]
      else []))

/-- Model of `expand_query` from the agent module: build the candidate
list, deduplicate preserving first-seen order, keep at most 4 entries. -/
def expand_query (original_query : String) : List String :=
  (pyDedup (expandCandidates original_query)).take 4

/-- Leadership keywords that switch on the role-term boost of the
re-ranker. -/
def roleTriggerWords : List String :=
  ["chairperson", "faculty", "head", "dean", "professor"]

/-- Role-indicator substrings rewarded by the role-term boost. -/
def faculty_terms : List String :=
  ["dr.", "prof.", "chairperson", "head of department", "professor",
   "lecturer"]

/-- Department-name fragments rewarded by the department boost. -/
def deptBoostWords : List String :=
  ["mathematics", "computer", "electrical", "civil", "mechanical", "mining"]

/-- Relevance score of one chunk for one query, following the accumulation
in the source: phrase matches for lengths 4, 3, 2 (each window adds
`length * 10`), keyword-set intersection times 2, a role-term boost of 15
per matching role indicator when the query holds a leadership keyword, and
a department boost of 10 per fragment present in the query and in the
chunk text or department metadata.  The window count `words.length + 1 -
length` is the Python `range(len(words) - length + 1)` (empty when the
query has fewer words than the phrase length). -/
def relevanceScore (query : String) (doc : Doc) : Nat :=
  let query_lower := pyLower query
  let content_lower := pyLower doc.page_content
  let words := pySplit query_lower
  let s1 := [4, 3, 2].foldl (fun s length =>
    (List.range (words.length + 1 - length)).foldl (fun s i =>
      if substr (pyJoin " " ((words.drop i).take length)) content_lower then
        s + length * 10
      else s) s) 0
  let query_keywords := (pySplit query_lower).toFinset
  let doc_words := (pySplit content_lower).toFinset
  let s2 := s1 + (query_keywords ∩ doc_words).card * 2
  let s3 :=
    if roleTriggerWords.any (fun w => substr w query_lower) then
      faculty_terms.foldl (fun s term =>
        if substr term content_lower then s + 15 else s) s2
    else s2
  let dept_meta := pyLower (doc.departments.getD "")
  deptBoostWords.foldl (fun s w =>
    if substr w query_lower && substr w (content_lower ++ " " ++ dept_meta)
    then s + 10 else s) s3

/-- Insertion step of the stable descending sort: place `x` before the
first element whose key is at most `key x`. -/
def insertD {α : Type} (key : α → Nat) (x : α) : List α → List α
  | [] => [x]
  | y :: ys => if key y ≤ key x then x :: y :: ys else y :: insertD key x ys

/-- Stable sort by a numeric key in non-increasing order; models the
Python `list.sort(reverse=True, key=...)` call, which is stable. -/
def sortD {α : Type} (key : α → Nat) : List α → List α
  | [] => []
  | x :: xs => insertD key x (sortD key xs)

/-- Re-ranking step of `search_prospectus`: score every chunk against the
original query, sort by score descending (stable), keep the top 6. -/
def rerank (query : String) (docs : List Doc) : List Doc :=
  ((sortD (fun p => p.1)
      (docs.map (fun d => (relevanceScore query d, d)))).take 6).map
    (fun p => p.2)

/-- Deduplication key of the retriever: the first 100 characters of the
chunk text (the source hashes this prefix; equal prefixes always collide,
so set membership on the prefix models the `seen_content` set). -/
def dedupKey (d : Doc) : String :=
  pyTake d.page_content 100

/-- Cross-query deduplication loop of the retriever: keep a chunk only if
the key of its 100-character text preview was not seen before. -/
def dedupDocs : List Doc → List String → List Doc
  | [], _ => []
  | d :: ds, seen =>
    if dedupKey d ∈ seen then dedupDocs ds seen
    else d :: dedupDocs ds (dedupKey d :: seen)

/-- Source descriptor built for one chunk on the success path of
`search_prospectus`. -/
def mkSource (d : Doc) : SourceInfo :=
  { page := d.page.getD "unknown"
    department := d.departments.getD "General"
    sectionTag := d.section_type.getD "general_info" }

/-- Context annotation of the i-th chunk (1-based) in the assembled
context string. -/
def contextEntry (i : Nat) (d : Doc) : String :=
  "[Source " ++ toString i ++ " - " ++ d.departments.getD "General"
    ++ " - Page " ++ d.page.getD "unknown" ++ "]\n"
    ++ pyTrim d.page_content ++ "\n"

/-- Assembled context string: annotated chunks joined by newlines, indexed
from 1 as in the Python `enumerate(top_docs, 1)`. -/
def buildContext (docs : List Doc) : String :=
  pyJoin "\n" (docs.enum.map (fun p => contextEntry (p.1 + 1) p.2))

/-- Model of `search_prospectus`: expand the query, retrieve per expansion
through the external vector index (the `retrieve` parameter), deduplicate
by text preview, re-rank, and assemble context and sources.  The Python
`try` / `except` wrapper is not reachable here because the external calls
are modelled as total functions. -/
def search_prospectus (retrieve : String → List Doc) (query : String) :
    SearchResult :=
  let queries := expand_query query
  let all_docs := dedupDocs (queries.map retrieve).flatten []
  if all_docs.isEmpty then
    { found := false
      context := "No relevant information found in the prospectus."
      sources := []
      doc_count := none }
  else
    let top_docs := rerank query all_docs
    { found := true
      context := buildContext top_docs
      sources := top_docs.map mkSource
      doc_count := some top_docs.length }

/-- Factual-question indicator phrases that trigger the direct-search path
of the orchestrator. -/
def factual_indicators : List String :=
  ["which department", "what department", "who is", "is there",
   "tell me about", "faculty", "chairperson", "dean", "head of department",
   "professor", "m.sc", "msc", "phd", "bachelor", "master", "program",
   "offers", "admission", "eligibility", "requirement", "apply",
   "how many", "list of", "what are"]

/-- Grounding prompt of the direct-search path. -/
def answerPrompt (user_query context : String) : String :=
  "You are answering a question about UET based on the official prospectus.\n\nUSER QUESTION: "
  ++ user_query
  ++ "\n\nCONTEXT FROM PROSPECTUS:\n"
  ++ context
  ++ "\n\nCRITICAL INSTRUCTIONS:\n1. Answer the question DIRECTLY using ONLY the information in the context above.\n2. If asked about faculty, chairperson, or dean, give the EXACT names from the context.\n3. If asked about which department offers a program, state the EXACT department name from the context.\n4. Do NOT confuse different departments - pay attention to department names in the context.\n5. Be specific with names, departments, and details.\n6. If the context mentions multiple departments, make it clear which information belongs to which department.\n7. Keep your answer focused and accurate.\n\nANSWER:"

/-- Decision prompt of the non-direct path. -/
def decisionPrompt (user_query : String) : String :=
  "You are the UET Prospectus AI Assistant.\n\nUSER QUERY: "
  ++ user_query
  ++ "\n\nIf this is a greeting, respond naturally.\nIf this asks for UET information, output: Action: Search [your search query]\n\nDecision:"

/-- Grounding prompt issued after a parsed search directive. -/
def answerPrompt2 (user_query context : String) : String :=
  "Based on the UET prospectus, answer this question accurately:\n\nUSER QUESTION: "
  ++ user_query
  ++ "\n\nCONTEXT:\n"
  ++ context
  ++ "\n\nGive a direct, accurate answer using only the information provided. Be specific with names and departments.\n\nANSWER:"

/-- Case-insensitive literal match at the head of the input; the pattern
is supplied lowercased.  Returns the rest of the input on success. -/
def matchCI : List Char → List Char → Option (List Char)
  | [], rest => some rest
  | _ :: _, [] => none
  | p :: ps, c :: cs => if c.toLower = p then matchCI ps cs else none

/-- Split a character list at the first occurrence of a given character,
returning the parts before and after it. -/
def splitAtFirst (ch : Char) : List Char → Option (List Char × List Char)
  | [] => none
  | c :: cs =>
    if c = ch then some ([], cs)
    else (splitAtFirst ch cs).map (fun p => (c :: p.1, p.2))

/-- Capture of the non-greedy group `(.+?)` followed by a closing bracket:
at least one character, then everything up to the first closing bracket. -/
def findGroup (cs : List Char) : Option String :=
  match cs with
  | [] => none
  | c :: rest => (splitAtFirst ']' rest).map (fun p => String.mk (c :: p.1))

/-- Attempt of the full directive pattern at one position: literal
`Action:` (case-insensitive), whitespace, literal `Search`, whitespace, an
opening bracket, then the non-greedy group and closing bracket. -/
def tryMatchAt (cs : List Char) : Option String :=
  match matchCI "action:".data cs with
  | none => none
  | some r1 =>
    match matchCI "search".data (r1.dropWhile Char.isWhitespace) with
    | none => none
    | some r3 =>
      match r3.dropWhile Char.isWhitespace with
      | '[' :: r5 => findGroup r5
      | _ => none

/-- Model of `re.search` for the directive pattern
`Action:\s*Search\s*\[(.+?)\]` with the IGNORECASE and DOTALL flags:
leftmost position wins, the group is everything up to the first closing
bracket. -/
def findAction : List Char → Option String
  | [] => none
  | c :: cs =>
    match tryMatchAt (c :: cs) with
    | some g => some g
    | none => findAction cs

/-- Model of Python `s.strip(chars)`: drop the given characters from both
ends. -/
def pyStripChars (chs : List Char) (s : String) : String :=
  String.mk
    (((s.data.dropWhile (· ∈ chs)).reverse.dropWhile (· ∈ chs)).reverse)

/-- Post-processing of the parsed directive group:
`.strip().strip(chr(34)).strip(chr(39))` from the source. -/
def cleanActionQuery (g : String) : String :=
  pyStripChars [Char.ofNat 39] (pyStripChars [Char.ofNat 34] (pyTrim g))

/-- Refusal phrases that force a fallback retrieval. -/
def refusalPhrases : List String :=
  ["don\x27t have", "cannot", "not sure"]

/-- Fixed message of the direct-search path when nothing is found. -/
def noInfoMsgDirect : String :=
  "I couldn\x27t find specific information about that in the UET prospectus. Could you rephrase your question or ask about a specific department?"

/-- Fixed message of the directive path when nothing is found. -/
def noInfoMsgAction : String :=
  "I couldn\x27t find specific information about that in the UET prospectus. Could you rephrase your question?"

/-- Model of `run_enhanced_agent`.  The external language model is the
`llm` parameter (prompt to completion), the external vector index is the
`retrieve` parameter. -/
def run_enhanced_agent (retrieve : String → List Doc)
    (llm : String → String) (user_query : String) : String :=
  let query_lower := pyLower user_query
  let should_search_directly :=
    factual_indicators.any (fun ind => substr ind query_lower)
  if should_search_directly then
    let search_results := search_prospectus retrieve user_query
    if !search_results.found then noInfoMsgDirect
    else pyTrim (llm (answerPrompt user_query search_results.context))
  else
    let response := llm (decisionPrompt user_query)
    match findAction response.data with
    | some g =>
      let search_query := cleanActionQuery g
      let search_results := search_prospectus retrieve search_query
      if !search_results.found then noInfoMsgAction
      else pyTrim (llm (answerPrompt2 user_query search_results.context))
    | none =>
      let response_lower := pyLower response
      if refusalPhrases.any (fun p => substr p response_lower) then
        let search_results := search_prospectus retrieve user_query
        if search_results.found then
          pyTrim (llm ("Answer based on this context: "
            ++ search_results.context ++ "\n\nQuestion: " ++ user_query))
        else response
      else response

/-- Greeting words accepted by the guardrail. -/
def greetings : List String :=
  ["hi", "hello", "hey", "greetings", "good morning", "good evening",
   "thanks", "thank you"]

/-- Domain keywords accepted by the guardrail. -/
def uet_keywords : List String :=
  ["uet", "university of engineering", "lahore", "taxila", "faisalabad",
   "department", "computer", "electrical", "mechanical", "civil",
   "chemical", "industrial", "architecture", "petroleum", "biomedical",
   "environmental", "textile", "metallurgy", "mining", "aerospace",
   "mathematics", "physics", "transportation", "geological",
   "geotechnical", "city planning", "regional planning", "course",
   "admission", "faculty", "fee", "program", "degree", "bachelor",
   "master", "phd", "msc", "bs", "engineering", "syllabus", "curriculum",
   "professor", "chairperson", "dean", "head of department", "hod",
   "scholarship", "campus", "hostel", "library", "artificial intelligence"]

/-- Model of the domain guardrail `is_uet_related`: accept when the
trimmed lowercased query starts with a greeting word and the query has at
most 3 whitespace tokens, otherwise accept exactly when some domain
keyword occurs as a substring of the lowercased query. -/
def is_uet_related (query : String) : Bool :=
  let query_lower := pyLower query
  if (greetings.any (fun g => startswith g (pyTrim query_lower)))
      && (pySplit query_lower).length ≤ 3 then
    true
  else
    uet_keywords.any (fun k => substr k query_lower)

/-- Python exception classes relevant at the service boundary. -/
inductive PyErr where
  | valueError (msg : String)
  | other (msg : String)
deriving DecidableEq

/-- Fixed reply of `process_query` on empty input. -/
def emptyQueryMsg : String := "Please ask me a question about UET."

/-- Fixed reply of `process_query` on out-of-domain input. -/
def outOfDomainMsg : String :=
  "I\x27m specialized in answering questions about UET departments, programs, admissions, and facilities. Please ask me about these topics!"

/-- Fixed apology of `process_query` when the agent raises. -/
def agentErrorMsg : String :=
  "I encountered an error while processing your question. Please try rephrasing."

/-- Model of `process_query`: trim, reject empty input, apply the
guardrail, then run the agent; any exception the agent raises is caught
and converted to the fixed apology.  The agent is a parameter returning
`Except` so that its failures can be modelled. -/
def process_query (agent : String → Except PyErr String)
    (user_query : String) : String :=
  let q := pyTrim user_query
  if q = "" then emptyQueryMsg
  else if !is_uet_related q then outOfDomainMsg
  else
    match agent q with
    | Except.ok r => r
    | Except.error _ => agentErrorMsg

/-- HTTP responses of the chat endpoint, as status classes. -/
inductive HttpResponse where
  | success (body : String) (status : String)
  | clientError (code : Nat) (detail : String)
  | serverError (code : Nat) (detail : String)
deriving DecidableEq

/-- Model of the `/chat` endpoint: request validation (length 1 to 500 on
the raw message, then non-empty after trimming, after which the message is
replaced by its trimmed form) yields a client error on failure; the body
runs `process` on the validated message, mapping a raised ValueError to a
400 client error and any other exception to a 500 server error with the
generic detail text. -/
def chat_endpoint (process : String → Except PyErr String)
    (message : String) : HttpResponse :=
  if message.length < 1 ∨ message.length > 500 then
    HttpResponse.clientError 422 "validation error"
  else if pyTrim message = "" then
    HttpResponse.clientError 422 "Message cannot be empty"
  else
    match process (pyTrim message) with
    | Except.ok text => HttpResponse.success text "success"
    | Except.error (PyErr.valueError m) => HttpResponse.clientError 400 m
    | Except.error (PyErr.other m) =>
      HttpResponse.serverError 500
        ("An error occurred while processing your request: " ++ m)

/-- Full service composition: the endpoint running `process_query` over a
given agent.  `process_query` is total, so the composed `process` never
raises. -/
def serviceOf (agent : String → Except PyErr String) (message : String) :
    HttpResponse :=
  chat_endpoint (fun m => Except.ok (process_query agent m)) message

/-- Contiguous word windows of length `L`, as described by the
specification of the phrase-overlap term: the `i`-th window is
`ws[i:i+L]`, for `i` ranging over the `ws.length + 1 - L` window start
positions. -/
def ngramWindows (ws : List String) (L : Nat) : List (List String) :=
  (List.range (ws.length + 1 - L)).map (fun i => (ws.drop i).take L)

/-- Phrase-overlap term as worded by the specification: for each n-gram
length in 4, 3, 2, each window of that length whose space-joined text is a
substring of the lowercased chunk text contributes the length times 10. -/
def phraseOverlap (query : String) (doc : Doc) : Nat :=
  ([4, 3, 2].map (fun L =>
    ((ngramWindows (pySplit (pyLower query)) L).filter
      (fun w => substr (pyJoin " " w) (pyLower doc.page_content))).length
    * (L * 10))).sum

/-- Keyword-overlap term as worded by the specification: twice the
cardinality of the intersection of the whitespace-token sets of the
lowercased query and chunk text. -/
def keywordOverlap (query : String) (doc : Doc) : Nat :=
  2 * ((pySplit (pyLower query)).toFinset
    ∩ (pySplit (pyLower doc.page_content)).toFinset).card

/-- Role-term boost as worded by the specification: when the query holds a
leadership keyword, 15 for each role-indicator term occurring in the
chunk text, additively per distinct term. -/
def roleBoost (query : String) (doc : Doc) : Nat :=
  if roleTriggerWords.any (fun w => substr w (pyLower query)) then
    15 * (faculty_terms.filter
      (fun t => substr t (pyLower doc.page_content))).length
  else 0

/-- Department boost as worded by the specification: 10, at most once per
fragment, for each fragment occurring in the query and also in the chunk
text or in its department metadata tag. -/
def deptBoost (query : String) (doc : Doc) : Nat :=
  10 * (deptBoostWords.filter (fun w =>
    substr w (pyLower query)
    && (substr w (pyLower doc.page_content)
        || substr w (pyLower (doc.departments.getD ""))))).length

/-- Witness fixture: a retrieval function that finds nothing. -/
def retrieveNone : String → List Doc := fun _ => []

/-- Witness fixture: a faculty chunk used to exercise the success path. -/
def docW : Doc :=
  { page_content := "Dr. Ali Khan, Chairperson, Department of Mathematics"
    departments := some "Mathematics"
    section_type := some "faculty"
    page := some "12" }

/-- Witness fixture: a retrieval function returning the chunk `docW` for
every expansion query. -/
def retrieveW : String → List Doc := fun _ => [docW]

/-- Witness fixture: a 100-character string used as a shared text preview. -/
def longA : String := String.mk (List.replicate 100 'a')

/-- Witness fixture: chunk whose text equals `longA` plus one tail. -/
def docA : Doc :=
  { page_content := longA ++ " tail one"
    departments := some "Mathematics"
    section_type := some "faculty"
    page := some "3" }

/-- Witness fixture: chunk sharing the first 100 characters with `docA`
but differing afterwards. -/
def docB : Doc :=
  { page_content := longA ++ " tail two"
    departments := none
    section_type := none
    page := none }

/-- Witness fixture: an agent that always raises a non-ValueError
exception. -/
def agentFail : String → Except PyErr String :=
  fun _ => Except.error (PyErr.other "boom")

end UET

namespace UET

/-! ### Generic helper lemmas -/

theorem str_ne_empty_of_data {s : String} (h : s.data ≠ []) : s ≠ "" :=
  fun e => h (by rw [e])

theorem append_ne_empty_left (a b : String) (ha : a ≠ "") : a ++ b ≠ "" := by
  intro e
  have hd : a.data ++ b.data = [] := by
    have := congrArg String.data e
    simpa using this
  exact ha (by
    have : a.data = [] := (List.append_eq_nil.mp hd).1
    cases a
    simp_all)

theorem append_ne_empty_right (a b : String) (hb : b ≠ "") : a ++ b ≠ "" := by
  intro e
  have hd : a.data ++ b.data = [] := by
    have := congrArg String.data e
    simpa using this
  exact hb (by
    have : b.data = [] := (List.append_eq_nil.mp hd).2
    cases b
    simp_all)

theorem mem_ite_nil {e : String} {c : Prop} [Decidable c] {l : List String}
    (h : e ∈ if c then l else ([] : List String)) : e ∈ l := by
  split at h
  · exact h
  · simp at h

/-! ### Lemmas on `pyDedupAux` -/

theorem pyDedupAux_sublist : ∀ (l seen : List String), List.Sublist (pyDedupAux l seen) l
  | [], _ => List.Sublist.refl _
  | x :: xs, seen => by
    rw [pyDedupAux]
    split
    · exact (pyDedupAux_sublist xs seen).trans (List.sublist_cons_self x xs)
    · exact (pyDedupAux_sublist xs (x :: seen)).cons₂ x

theorem not_mem_seen_of_mem_pyDedupAux :
    ∀ (l seen : List String) (x : String),
      x ∈ pyDedupAux l seen → x ∉ seen := by
  intro l
  induction l with
  | nil => intro seen x hx; simp [pyDedupAux] at hx
  | cons a t ih =>
    intro seen x hx
    rw [pyDedupAux] at hx
    split at hx
    · exact ih seen x hx
    · rcases List.mem_cons.mp hx with h | h
      · subst h; assumption
      · intro hseen
        exact ih (a :: seen) x h (List.mem_cons_of_mem a hseen)

theorem pyDedupAux_nodup : ∀ (l seen : List String), (pyDedupAux l seen).Nodup := by
  intro l
  induction l with
  | nil => intro seen; simp [pyDedupAux]
  | cons a t ih =>
    intro seen
    rw [pyDedupAux]
    split
    · exact ih seen
    · refine List.nodup_cons.mpr ⟨?_, ih (a :: seen)⟩
      intro ha
      exact not_mem_seen_of_mem_pyDedupAux t (a :: seen) a ha
        (List.mem_cons_self a (seen))

theorem pyDedup_nodup (l : List String) : (pyDedup l).Nodup :=
  pyDedupAux_nodup l []

theorem pyDedup_mem {x : String} {l : List String} (h : x ∈ pyDedup l) :
    x ∈ l :=
  (pyDedupAux_sublist l []).subset h


/-! ### Lemmas on `dedupDocs` -/

theorem dedupDocs_sublist :
    ∀ (l : List Doc) (seen : List String),
      List.Sublist (dedupDocs l seen) l
  | [], _ => List.Sublist.refl _
  | d :: ds, seen => by
    rw [dedupDocs]
    split
    · exact (dedupDocs_sublist ds seen).trans (List.sublist_cons_self d ds)
    · exact (dedupDocs_sublist ds (dedupKey d :: seen)).cons₂ d

theorem key_not_seen_of_mem_dedupDocs :
    ∀ (l : List Doc) (seen : List String) (d : Doc),
      d ∈ dedupDocs l seen → dedupKey d ∉ seen := by
  intro l
  induction l with
  | nil => intro seen d hd; simp [dedupDocs] at hd
  | cons a t ih =>
    intro seen d hd
    rw [dedupDocs] at hd
    split at hd
    · exact ih seen d hd
    · rcases List.mem_cons.mp hd with h | h
      · subst h; assumption
      · intro hseen
        exact ih (dedupKey a :: seen) d h (List.mem_cons_of_mem _ hseen)

theorem dedupDocs_keys_nodup :
    ∀ (l : List Doc) (seen : List String),
      ((dedupDocs l seen).map dedupKey).Nodup := by
  intro l
  induction l with
  | nil => intro seen; simp [dedupDocs]
  | cons a t ih =>
    intro seen
    rw [dedupDocs]
    split
    · exact ih seen
    · rw [List.map_cons]
      refine List.nodup_cons.mpr ⟨?_, ih (dedupKey a :: seen)⟩
      intro ha
      rcases List.mem_map.mp ha with ⟨d, hd, hk⟩
      exact key_not_seen_of_mem_dedupDocs t (dedupKey a :: seen) d hd
        (by rw [hk]; exact List.mem_cons_self _ _)

theorem dedupDocs_covers :
    ∀ (l : List Doc) (seen : List String) (d : Doc), d ∈ l →
      dedupKey d ∈ seen
      ∨ ∃ d' ∈ dedupDocs l seen, dedupKey d' = dedupKey d := by
  intro l
  induction l with
  | nil => intro seen d hd; simp at hd
  | cons a t ih =>
    intro seen d hd
    rw [dedupDocs]
    rcases List.mem_cons.mp hd with h | h
    · subst h
      by_cases hk : dedupKey d ∈ seen
      · left; exact hk
      · right
        refine ⟨d, ?_, rfl⟩
        simp only [hk, if_false]
        exact List.mem_cons_self _ _
    · by_cases hk : dedupKey a ∈ seen
      · simp only [hk, if_true]
        exact ih seen d h
      · simp only [hk, if_false]
        rcases ih (dedupKey a :: seen) d h with hs | ⟨d', hd', he⟩
        · rcases List.mem_cons.mp hs with he | hs
          · right; exact ⟨a, List.mem_cons_self _ _, he.symm⟩
          · left; exact hs
        · right; exact ⟨d', List.mem_cons_of_mem _ hd', he⟩

/-! ### Claim C5: deduplication by 100-character text preview -/

/-- C5: the retriever's cross-query deduplication keys on the first 100
characters of the chunk text only.  The unique collection is a
subsequence of the arrivals (first-seen chunks kept, in order), no two
kept chunks share a preview, every arrival is represented by a kept chunk
with the same preview, and in particular of two chunks with identical
first 100 characters only the first-seen one is kept even when their
texts differ afterwards. -/
theorem dedup_first100_merges :
    (∀ docs : List Doc, List.Sublist (dedupDocs docs []) docs)
    ∧ (∀ docs : List Doc, ((dedupDocs docs []).map dedupKey).Nodup)
    ∧ (∀ (docs : List Doc) (d : Doc), d ∈ docs →
        ∃ d' ∈ dedupDocs docs [],
          pyTake d'.page_content 100 = pyTake d.page_content 100)
    ∧ (∀ d1 d2 : Doc,
        pyTake d1.page_content 100 = pyTake d2.page_content 100 →
        dedupDocs [d1, d2] [] = [d1]) := by
  refine ⟨fun docs => dedupDocs_sublist docs [], fun docs => dedupDocs_keys_nodup docs [], ?_, ?_⟩
  · intro docs d hd
    rcases dedupDocs_covers docs [] d hd with hs | ⟨d', hd', he⟩
    · simp at hs
    · exact ⟨d', hd', he⟩
  · intro d1 d2 h
    simp [dedupDocs, dedupKey, h]

/-- Witness for C5 at concrete chunks: `docA` and `docB` share their
first 100 characters, differ afterwards, and collapse to the first-seen
chunk. -/
theorem dedup_first100_merges_witness :
    pyTake docA.page_content 100 = pyTake docB.page_content 100
    ∧ docA.page_content ≠ docB.page_content
    ∧ dedupDocs [docA, docB] [] = [docA]
    ∧ ∃ d' ∈ dedupDocs [docA, docB] [],
        pyTake d'.page_content 100 = pyTake docB.page_content 100 :=
  ⟨by decide, by decide,
   dedup_first100_merges.2.2.2 docA docB (by decide),
   dedup_first100_merges.2.2.1 [docA, docB] docB (by decide)⟩

/-! ### Claim C3: expansion of the chairperson example query -/

/-- C3 counterexample: the expansion of the example query does not contain
the entry `mathematics chairperson head`; the candidate list holds five
entries and the truncation to 4 drops it. -/
theorem expansion_example_truncated :
    ¬ ("mathematics chairperson head" ∈
        expand_query "Who is the chairperson of the mathematics department?") := by
  decide

/-- C3 amended: the expansion of the example query contains the
faculty-list variant and `mathematics department faculty`; department
detection on `mathematics` does fire and appends both department entries
to the candidate list, but the truncation to at most 4 entries drops
`mathematics chairperson head` from the returned list. -/
theorem expansion_example_amended :
    expand_query "Who is the chairperson of the mathematics department?"
      = ["Who is the chairperson of the mathematics department?",
         "faculty list Who is the chairperson of the mathematics department?",
         "staff members Who is the chairperson of the mathematics department?",
         "mathematics department faculty"]
    ∧ "faculty list Who is the chairperson of the mathematics department?"
        ∈ expand_query "Who is the chairperson of the mathematics department?"
    ∧ "mathematics department faculty"
        ∈ expand_query "Who is the chairperson of the mathematics department?"
    ∧ "mathematics chairperson head"
        ∈ pyDedup (expandCandidates
            "Who is the chairperson of the mathematics department?") := by
  decide

/-! ### Claim C6: guardrail examples -/

/-- C6: the guardrail (a pure boolean function in this embedding) accepts
`hi` through the greeting path, rejects the capital-of-France question,
and accepts the admission question through the keyword path. -/
theorem guardrail_examples :
    is_uet_related "hi" = true
    ∧ is_uet_related "What\x27s the capital of France?" = false
    ∧ is_uet_related "admission requirements for civil engineering" = true := by
  decide

/-! ### Claim C9: the greeting test is a character-prefix test -/

/-- C9: every query of at most 3 whitespace tokens whose trimmed
lowercased text starts with a greeting word as a character-level prefix is
accepted, regardless of whether the greeting is a whole word and
regardless of domain keywords. -/
theorem greeting_prefix_accepts (q : String)
    (hg : greetings.any (fun g => startswith g (pyTrim (pyLower q))) = true)
    (hlen : (pySplit (pyLower q)).length ≤ 3) :
    is_uet_related q = true := by
  simp [is_uet_related, hg, hlen]

/-- Witness for C9: the 3-token query `hiking in alps` starts with the
greeting `hi` only as a character prefix, contains no domain keyword, and
is accepted. -/
theorem greeting_prefix_accepts_witness :
    greetings.any (fun g => startswith g (pyTrim (pyLower "hiking in alps"))) = true
    ∧ (pySplit (pyLower "hiking in alps")).length ≤ 3
    ∧ uet_keywords.any (fun k => substr k (pyLower "hiking in alps")) = false
    ∧ is_uet_related "hiking in alps" = true :=
  ⟨by decide, by decide, by decide,
   greeting_prefix_accepts "hiking in alps" (by decide) (by decide)⟩

/-! ### Claim C4: shape of the expander output -/

theorem mem_ite_nil_iff {e : String} {c : Prop} [Decidable c] {l : List String} :
    (e ∈ if c then l else ([] : List String)) ↔ c ∧ e ∈ l := by
  by_cases h : c <;> simp [h]

theorem mem_expandCandidates_ne_empty (q : String) (hq : q ≠ "") :
    ∀ e ∈ expandCandidates q, e ≠ "" := by
  intro e he
  simp only [expandCandidates, List.mem_cons, List.mem_append, mem_ite_nil_iff,
    List.mem_singleton, List.not_mem_nil, or_false] at he
  rcases he with rfl | ((((⟨-, he⟩ | ⟨-, he⟩) | ⟨-, he⟩) | ⟨-, he⟩) | ⟨-, he⟩)
  · exact hq
  · rcases he with (rfl | rfl) | he
    · exact append_ne_empty_left _ _ (by decide)
    · exact append_ne_empty_left _ _ (by decide)
    · rcases hd : List.find? (fun w => substr w (pyLower q)) expandDepts with _ | d
      · rw [hd] at he; simp at he
      · rw [hd] at he
        simp only [List.mem_cons, List.mem_singleton, List.not_mem_nil,
          or_false] at he
        rcases he with rfl | rfl
        · exact append_ne_empty_right _ _ (by decide)
        · exact append_ne_empty_right _ _ (by decide)
  · rcases he with rfl | he
    · exact append_ne_empty_left _ _ (by decide)
    · rcases hp : List.find? (fun w => substr w (pyLower q)) expandPrograms with _ | p
      · rw [hp] at he; simp at he
      · rw [hp] at he
        simp only [List.mem_singleton] at he
        subst he
        exact append_ne_empty_right _ _ (by decide)
  · rcases he with rfl | rfl
    · exact append_ne_empty_left _ _ (by decide)
    · exact append_ne_empty_left _ _ (by decide)
  · rcases he with rfl | rfl <;> decide
  · rcases he with rfl | rfl <;> decide

/-- C4 counterexample: `expand_query` keeps the original query as given;
at the non-empty input consisting of `hi` with surrounding spaces the
first element is the untrimmed input, not the trimmed original query. -/
theorem expander_first_untrimmed :
    (expand_query " hi ").head? = some " hi "
    ∧ pyTrim " hi " = "hi"
    ∧ ¬ (expand_query " hi ").head? = some (pyTrim " hi ") := by
  decide

/-- C4 amended: for every non-empty input, `expand_query` returns between
1 and 4 pairwise-distinct non-empty strings, deduplicated preserving
first-seen order, whose first element equals the original query exactly as
passed (the orchestrator trims before calling, so the pipeline hands it an
already-trimmed query, but the expander itself does not trim). -/
theorem expander_output_shape (q : String) (hq : q ≠ "") :
    1 ≤ (expand_query q).length
    ∧ (expand_query q).length ≤ 4
    ∧ (expand_query q).Nodup
    ∧ (expand_query q).head? = some q
    ∧ ∀ e ∈ expand_query q, e ≠ "" := by
  obtain ⟨t, ht⟩ : ∃ t, expandCandidates q = q :: t := ⟨_, rfl⟩
  have hded : pyDedup (expandCandidates q) = q :: pyDedupAux t [q] := by
    rw [ht]; simp [pyDedup, pyDedupAux]
  refine ⟨?_, ?_, ?_, ?_, ?_⟩
  · simp only [expand_query, hded, List.take_succ_cons, List.length_cons]
    omega
  · simp only [expand_query, List.length_take]
    exact Nat.min_le_left _ _
  · exact List.Nodup.sublist (List.take_sublist _ _) (pyDedup_nodup _)
  · simp only [expand_query, hded, List.take_succ_cons, List.head?_cons]
  · intro e hee
    simp only [expand_query] at hee
    exact mem_expandCandidates_ne_empty q hq e
      (pyDedup_mem ((List.take_sublist _ _).subset hee))

/-- Witness for C4 at the concrete non-empty input `hi`. -/
theorem expander_output_shape_witness :
    ("hi" : String) ≠ ""
    ∧ (1 ≤ (expand_query "hi").length
       ∧ (expand_query "hi").length ≤ 4
       ∧ (expand_query "hi").Nodup
       ∧ (expand_query "hi").head? = some "hi"
       ∧ ∀ e ∈ expand_query "hi", e ≠ "") :=
  ⟨by decide, expander_output_shape "hi" (by decide)⟩

/-! ### Lemmas on the stable descending sort -/

theorem insertD_perm {α : Type} (key : α → Nat) (x : α) :
    ∀ l : List α, (insertD key x l).Perm (x :: l)
  | [] => List.Perm.refl _
  | y :: ys => by
    rw [insertD]
    split
    · exact List.Perm.refl _
    · exact ((insertD_perm key x ys).cons y).trans (List.Perm.swap x y ys)

theorem sortD_perm {α : Type} (key : α → Nat) :
    ∀ l : List α, (sortD key l).Perm l
  | [] => List.Perm.refl _
  | x :: xs =>
    (insertD_perm key x (sortD key xs)).trans ((sortD_perm key xs).cons x)

theorem mem_insertD {α : Type} {key : α → Nat} {x z : α} {l : List α} :
    z ∈ insertD key x l ↔ z = x ∨ z ∈ l :=
  ((insertD_perm key x l).mem_iff).trans List.mem_cons

theorem insertD_pairwise_rel {α : Type} (key idx : α → Nat) (x : α) :
    ∀ l : List α,
      l.Pairwise (fun a b => key b < key a ∨ (key a = key b ∧ idx a < idx b)) →
      (∀ y ∈ l, idx x < idx y) →
      (insertD key x l).Pairwise
        (fun a b => key b < key a ∨ (key a = key b ∧ idx a < idx b)) := by
  intro l
  induction l with
  | nil => intro _ _; simp [insertD]
  | cons y ys ih =>
    intro hl hx
    rcases List.pairwise_cons.mp hl with ⟨hy, hys⟩
    rw [insertD]
    split
    case isTrue h =>
      refine List.pairwise_cons.mpr ⟨?_, hl⟩
      intro z hz
      have hzx : key z ≤ key x := by
        rcases List.mem_cons.mp hz with rfl | hz'
        · exact h
        · have hzy : key z ≤ key y := by
            rcases hy z hz' with h1 | ⟨h1, _⟩
            · exact Nat.le_of_lt h1
            · exact Nat.le_of_eq h1.symm
          exact Nat.le_trans hzy h
      rcases Nat.lt_or_ge (key z) (key x) with hlt | hge
      · exact Or.inl hlt
      · exact Or.inr ⟨Nat.le_antisymm hge hzx, hx z hz⟩
    case isFalse h =>
      refine List.pairwise_cons.mpr
        ⟨?_, ih hys (fun z hz => hx z (List.mem_cons_of_mem _ hz))⟩
      intro z hz
      rcases mem_insertD.mp hz with rfl | hz'
      · exact Or.inl (Nat.lt_of_not_le h)
      · exact hy z hz'

theorem sortD_pairwise_rel {α : Type} (key idx : α → Nat) :
    ∀ l : List α, l.Pairwise (fun a b => idx a < idx b) →
      (sortD key l).Pairwise
        (fun a b => key b < key a ∨ (key a = key b ∧ idx a < idx b)) := by
  intro l
  induction l with
  | nil => intro _; simp [sortD]
  | cons x xs ih =>
    intro hl
    rcases List.pairwise_cons.mp hl with ⟨hx, hxs⟩
    rw [sortD]
    exact insertD_pairwise_rel key idx x (sortD key xs) (ih hxs)
      (fun y hy => hx y (((sortD_perm key xs).mem_iff).mp hy))

theorem map_insertD {α β : Type} (key : α → Nat) (key2 : β → Nat) (f : α → β)
    (hf : ∀ a, key2 (f a) = key a) (x : α) :
    ∀ l : List α, (insertD key x l).map f = insertD key2 (f x) (l.map f) := by
  intro l
  induction l with
  | nil => simp [insertD]
  | cons y ys ih =>
    rw [insertD, List.map_cons, insertD]
    by_cases h : key y ≤ key x
    · rw [if_pos h, if_pos (by rw [hf, hf]; exact h)]
      simp
    · rw [if_neg h, if_neg (by rw [hf, hf]; exact h), List.map_cons, ih]

theorem map_sortD {α β : Type} (key : α → Nat) (key2 : β → Nat) (f : α → β)
    (hf : ∀ a, key2 (f a) = key a) :
    ∀ l : List α, (sortD key l).map f = sortD key2 (l.map f) := by
  intro l
  induction l with
  | nil => simp [sortD]
  | cons x xs ih =>
    rw [sortD, List.map_cons, sortD, map_insertD key key2 f hf, ih]

theorem le_fst_of_mem_enumFrom {α : Type} :
    ∀ (l : List α) (m : Nat) (y : Nat × α), y ∈ l.enumFrom m → m ≤ y.1 := by
  intro l
  induction l with
  | nil => intro m y hy; simp [List.enumFrom] at hy
  | cons a t ih =>
    intro m y hy
    rw [List.enumFrom_cons] at hy
    rcases List.mem_cons.mp hy with rfl | hy'
    · exact Nat.le_refl m
    · exact Nat.le_of_succ_le (ih (m + 1) y hy')

theorem enumFrom_pairwise_fst {α : Type} :
    ∀ (l : List α) (m : Nat),
      (l.enumFrom m).Pairwise (fun a b => a.1 < b.1) := by
  intro l
  induction l with
  | nil => intro m; simp [List.enumFrom]
  | cons a t ih =>
    intro m
    rw [List.enumFrom_cons]
    refine List.pairwise_cons.mpr ⟨?_, ih (m + 1)⟩
    intro y hy
    exact Nat.lt_of_succ_le (le_fst_of_mem_enumFrom t (m + 1) y hy)

/-! ### Claim C2: re-ranker ordering, stability, truncation -/

/-- C2: the re-ranker output arises from the score-annotated,
index-annotated chunk list by a sort that is strictly ordered by
score-descending with ties broken by ascending original position (hence
scores non-increasing and ties stable), followed by truncation to at most
6; if at most 6 candidates exist the whole sorted list is returned. -/
theorem reranker_sorted_stable_top6 (q : String) (docs : List Doc) :
    ∃ s : List (Nat × Nat × Doc),
      s.Perm (docs.enum.map (fun p => (p.1, relevanceScore q p.2, p.2)))
      ∧ s.Pairwise (fun a b => b.2.1 < a.2.1 ∨ (a.2.1 = b.2.1 ∧ a.1 < b.1))
      ∧ s.Pairwise (fun a b => b.2.1 ≤ a.2.1)
      ∧ rerank q docs = (s.take 6).map (fun t => t.2.2)
      ∧ (rerank q docs).length = min 6 docs.length
      ∧ (docs.length ≤ 6 → rerank q docs = s.map (fun t => t.2.2)) := by
  have hpair0 : (docs.enum.map
      (fun p : Nat × Doc => (p.1, relevanceScore q p.2, p.2))).Pairwise
      (fun a b => a.1 < b.1) :=
    List.pairwise_map.mpr (enumFrom_pairwise_fst docs 0)
  have hrel := sortD_pairwise_rel (fun t : Nat × Nat × Doc => t.2.1)
    (fun t => t.1) _ hpair0
  have hperm := sortD_perm (fun t : Nat × Nat × Doc => t.2.1)
    (docs.enum.map (fun p => (p.1, relevanceScore q p.2, p.2)))
  have hscored :
      (docs.enum.map
        (fun p : Nat × Doc => (p.1, relevanceScore q p.2, p.2))).map
        (fun t : Nat × Nat × Doc => (t.2.1, t.2.2))
      = docs.map (fun d => (relevanceScore q d, d)) := by
    rw [List.map_map]
    conv_rhs => rw [← List.enumFrom_map_snd 0 docs]
    rw [List.map_map]
    rfl
  have hmap :
      (sortD (fun t : Nat × Nat × Doc => t.2.1)
        (docs.enum.map (fun p => (p.1, relevanceScore q p.2, p.2)))).map
        (fun t : Nat × Nat × Doc => (t.2.1, t.2.2))
      = sortD (fun p : Nat × Doc => p.1)
          (docs.map (fun d => (relevanceScore q d, d))) := by
    rw [map_sortD (fun t : Nat × Nat × Doc => t.2.1)
      (fun p : Nat × Doc => p.1)
      (fun t : Nat × Nat × Doc => (t.2.1, t.2.2)) (fun _ => rfl), hscored]
  have hlen : (sortD (fun t : Nat × Nat × Doc => t.2.1)
      (docs.enum.map (fun p => (p.1, relevanceScore q p.2, p.2)))).length
      = docs.length := by
    rw [hperm.length_eq, List.length_map, List.enum_eq_enumFrom,
      List.enumFrom_length]
  have hrr : rerank q docs
      = ((sortD (fun t : Nat × Nat × Doc => t.2.1)
          (docs.enum.map (fun p => (p.1, relevanceScore q p.2, p.2)))).take
            6).map (fun t => t.2.2) := by
    rw [rerank, ← hmap, ← List.map_take, List.map_map]
    rfl
  refine ⟨_, hperm, hrel, hrel.imp ?_, hrr, ?_, ?_⟩
  · intro a b h
    rcases h with h | ⟨h, _⟩
    · exact Nat.le_of_lt h
    · exact Nat.le_of_eq h.symm
  · rw [hrr, List.length_map, List.length_take, hlen]
  · intro hle
    rw [hrr, List.take_of_length_le (by rw [hlen]; exact hle)]

/-- Witness instantiating C2 at a concrete query and chunk list. -/
theorem reranker_sorted_stable_top6_witness :
    ∃ s : List (Nat × Nat × Doc),
      s.Perm ([docW].enum.map
        (fun p => (p.1, relevanceScore "mathematics chairperson" p.2, p.2)))
      ∧ s.Pairwise (fun a b => b.2.1 < a.2.1 ∨ (a.2.1 = b.2.1 ∧ a.1 < b.1))
      ∧ s.Pairwise (fun a b => b.2.1 ≤ a.2.1)
      ∧ rerank "mathematics chairperson" [docW]
          = (s.take 6).map (fun t => t.2.2)
      ∧ (rerank "mathematics chairperson" [docW]).length = min 6 [docW].length
      ∧ ([docW].length ≤ 6 →
          rerank "mathematics chairperson" [docW] = s.map (fun t => t.2.2)) :=
  reranker_sorted_stable_top6 "mathematics chairperson" [docW]

/-! ### Claim C1: the additive scoring formula -/

theorem foldl_if_add {β : Type} (p : β → Bool) (k : Nat) :
    ∀ (l : List β) (a : Nat),
      l.foldl (fun s x => if p x then s + k else s) a
        = a + (l.filter p).length * k := by
  intro l
  induction l with
  | nil => intro a; simp
  | cons x xs ih =>
    intro a
    rw [List.foldl_cons]
    cases hpx : p x with
    | false => simp [hpx, ih]
    | true => simp [hpx, ih]; ring

theorem length_filter_map_eq {α β : Type} (f : α → β) (p : β → Bool)
    (l : List α) :
    ((l.map f).filter p).length = (l.filter (fun x => p (f x))).length := by
  rw [List.filter_map, List.length_map]
  rfl

theorem pre_sep {α : Type} {c : α} :
    ∀ (s u v : List α), c ∉ s → s <+: u ++ c :: v → s <+: u
  | [], u, _, _, _ => ⟨u, rfl⟩
  | a :: s', u, v, hc, hp => by
    cases u with
    | nil =>
      rcases hp with ⟨t, ht⟩
      simp only [List.nil_append, List.cons_append] at ht
      injection ht with h1 h2
      cases h1
      exact absurd (List.mem_cons_self _ _) hc
    | cons b u' =>
      rcases hp with ⟨t, ht⟩
      simp only [List.cons_append] at ht
      injection ht with h1 h2
      cases h1
      have hrec : s' <+: u' :=
        pre_sep s' u' v (fun h => hc (List.mem_cons_of_mem _ h)) ⟨t, h2⟩
      rcases hrec with ⟨t', ht'⟩
      exact ⟨t', by rw [List.cons_append, ht']⟩

theorem infExtendRight {α : Type} {s w : List α} (z : List α)
    (h : s <:+: w) : s <:+: w ++ z := by
  rcases h with ⟨p, q', hpq⟩
  exact ⟨p, q' ++ z, by rw [← hpq]; simp⟩

theorem infixSepIff {α : Type} {c : α} (s : List α) (hc : c ∉ s) :
    ∀ (u v : List α), (s <:+: u ++ c :: v) ↔ (s <:+: u ∨ s <:+: v) := by
  intro u
  induction u with
  | nil =>
    intro v
    constructor
    · intro h
      rw [List.nil_append] at h
      rcases List.infix_cons_iff.mp h with hp | hi
      · have h0 : s <+: ([] : List α) := pre_sep s [] v hc (by simpa using hp)
        rcases h0 with ⟨t, ht⟩
        rcases List.append_eq_nil.mp ht with ⟨rfl, -⟩
        exact Or.inl ⟨[], [], rfl⟩
      · exact Or.inr hi
    · intro h
      rw [List.nil_append]
      rcases h with h | h
      · rcases h with ⟨p, q', hpq⟩
        rcases List.append_eq_nil.mp hpq with ⟨h1, -⟩
        rcases List.append_eq_nil.mp h1 with ⟨-, rfl⟩
        exact ⟨[], c :: v, rfl⟩
      · rcases h with ⟨p, q', hpq⟩
        exact ⟨c :: p, q', by simpa using hpq⟩
  | cons b u' ih =>
    intro v
    rw [List.cons_append]
    constructor
    · intro h
      rcases List.infix_cons_iff.mp h with hp | hi
      · left
        have h0 : s <+: b :: u' :=
          pre_sep s (b :: u') v hc (by simpa using hp)
        rcases h0 with ⟨t, ht⟩
        exact ⟨[], t, by simpa using ht⟩
      · rcases (ih v).mp hi with h1 | h1
        · left
          rcases h1 with ⟨p, q', hpq⟩
          exact ⟨b :: p, q', by simpa using hpq⟩
        · exact Or.inr h1
    · intro h
      rcases h with h | h
      · rw [← List.cons_append]
        exact infExtendRight (c :: v) h
      · have h1 := (ih v).mpr (Or.inr h)
        rcases h1 with ⟨p, q', hpq⟩
        exact ⟨b :: p, q', by simpa using hpq⟩

theorem substr_append_sep (w a b : String) (hw : (' ' : Char) ∉ w.data) :
    substr w (a ++ " " ++ b) = (substr w a || substr w b) := by
  simp only [substr]
  have hdata : (a ++ " " ++ b).data = a.data ++ ' ' :: b.data := by
    rw [String.data_append, String.data_append]
    simp
  rw [hdata]
  have hor : (decide (w.data <:+: a.data) || decide (w.data <:+: b.data))
      = decide (w.data <:+: a.data ∨ w.data <:+: b.data) := by simp
  rw [hor, decide_eq_decide]
  exact infixSepIff w.data hw a.data b.data

/-- C1: the relevance score computed by the re-ranker equals the sum of
the four claim terms: phrase overlap (each matching n-gram window of
length 4, 3, 2 contributes its length times 10), keyword overlap (twice
the cardinality of the token-set intersection), role-term boost (15 per
distinct role indicator found in the chunk text, when the query holds a
leadership keyword), and department boost (10, at most once per fragment,
for each fragment in the query that occurs in the chunk text or in the
department metadata). -/
theorem score_formula (q : String) (doc : Doc) :
    relevanceScore q doc
      = phraseOverlap q doc + keywordOverlap q doc + roleBoost q doc
        + deptBoost q doc := by
  have hall : ∀ x ∈ deptBoostWords, (' ' : Char) ∉ x.data := by decide
  have hdept :
      deptBoostWords.filter (fun w =>
        substr w (pyLower q)
        && substr w (pyLower doc.page_content ++ " "
            ++ pyLower (doc.departments.getD "")))
      = deptBoostWords.filter (fun w =>
        substr w (pyLower q)
        && (substr w (pyLower doc.page_content)
            || substr w (pyLower (doc.departments.getD "")))) := by
    apply List.filter_congr
    intro w hw
    rw [substr_append_sep w _ _ (hall w hw)]
  by_cases hrole : (roleTriggerWords.any fun w => substr w (pyLower q)) = true
  · simp only [relevanceScore, phraseOverlap, keywordOverlap, roleBoost,
      deptBoost, ngramWindows, hrole, if_true, List.foldl_cons,
      List.foldl_nil, List.map_cons, List.map_nil, List.sum_cons,
      List.sum_nil, foldl_if_add, length_filter_map_eq, hdept]
    omega
  · simp only [Bool.not_eq_true] at hrole
    simp only [relevanceScore, phraseOverlap, keywordOverlap, roleBoost,
      deptBoost, ngramWindows, hrole, Bool.false_eq_true, if_false,
      List.foldl_cons, List.foldl_nil, List.map_cons, List.map_nil,
      List.sum_cons, List.sum_nil, foldl_if_add, length_filter_map_eq,
      hdept]
    omega

/-! ### Claim C7: direct search with empty retrieval -/

/-- C7: on a query containing a factual indicator whose search comes back
with `found = false`, the orchestrator answers with exactly the fixed
message, for every language model (the conclusion does not depend on the
`llm` parameter, so the answer generator is never consulted). -/
theorem direct_search_empty_fixed_message (retrieve : String → List Doc)
    (q : String)
    (hdirect : (factual_indicators.any fun ind =>
      substr ind (pyLower q)) = true)
    (hempty : (search_prospectus retrieve q).found = false) :
    ∀ llm : String → String,
      run_enhanced_agent retrieve llm q
        = "I couldn\x27t find specific information about that in the UET prospectus. Could you rephrase your question or ask about a specific department?" := by
  intro llm
  simp [run_enhanced_agent, hdirect, hempty, noInfoMsgDirect]

/-- Witness for C7 at a concrete direct-search query with a retrieval
that returns nothing (and an arbitrary fixed language model). -/
theorem direct_search_empty_fixed_message_witness :
    (factual_indicators.any fun ind =>
        substr ind (pyLower "who is the dean")) = true
    ∧ (search_prospectus retrieveNone "who is the dean").found = false
    ∧ run_enhanced_agent retrieveNone (fun _ => "LLM REPLY") "who is the dean"
        = "I couldn\x27t find specific information about that in the UET prospectus. Could you rephrase your question or ask about a specific department?" :=
  ⟨by decide, by decide,
   direct_search_empty_fixed_message retrieveNone "who is the dean"
     (by decide) (by decide) (fun _ => "LLM REPLY")⟩

/-! ### Claim C10: invariants of the search result -/

theorem rerank_length (q : String) (docs : List Doc) :
    (rerank q docs).length = min 6 docs.length := by
  rw [rerank, List.length_map, List.length_take, (sortD_perm _ _).length_eq,
    List.length_map]

/-- C10: every search result satisfies the invariant: on `found = false`
the source list is empty; on `found = true` the sources are non-empty,
at most 6, equinumerous with `doc_count`, and the i-th source descriptor
and the i-th annotated context chunk are produced from the same chunk
list, in the same order (`map mkSource` and `buildContext` over one list
of chunks). -/
theorem search_result_invariant (retrieve : String → List Doc) (q : String) :
    ((search_prospectus retrieve q).found = false →
      (search_prospectus retrieve q).sources = [])
    ∧ ((search_prospectus retrieve q).found = true →
      ∃ docs : List Doc,
        docs ≠ []
        ∧ docs.length ≤ 6
        ∧ (search_prospectus retrieve q).sources = docs.map mkSource
        ∧ (search_prospectus retrieve q).sources.length = docs.length
        ∧ (search_prospectus retrieve q).doc_count = some docs.length
        ∧ (search_prospectus retrieve q).context = buildContext docs) := by
  cases hempty : (dedupDocs ((expand_query q).map retrieve).flatten []).isEmpty
  case true =>
    constructor
    · intro _
      simp [search_prospectus, hempty]
    · intro hfound
      simp [search_prospectus, hempty] at hfound
  case false =>
    have hne : dedupDocs ((expand_query q).map retrieve).flatten [] ≠ [] :=
      List.isEmpty_eq_false.mp hempty
    constructor
    · intro hfound
      simp [search_prospectus, hempty] at hfound
    · intro _
      refine ⟨rerank q (dedupDocs ((expand_query q).map retrieve).flatten []),
        ?_, ?_, ?_, ?_, ?_, ?_⟩
      · rw [← List.length_pos, rerank_length]
        have := List.length_pos.mpr hne
        omega
      · rw [rerank_length]
        exact Nat.min_le_left _ _
      · simp [search_prospectus, hempty]
      · simp [search_prospectus, hempty]
      · simp [search_prospectus, hempty]
      · simp [search_prospectus, hempty]

/-- Witness for C10 on the success path with one retrieved chunk. -/
theorem search_result_invariant_witness :
    (search_prospectus retrieveW "who is the dean").found = true
    ∧ (∃ docs : List Doc,
        docs ≠ []
        ∧ docs.length ≤ 6
        ∧ (search_prospectus retrieveW "who is the dean").sources
            = docs.map mkSource
        ∧ (search_prospectus retrieveW "who is the dean").sources.length
            = docs.length
        ∧ (search_prospectus retrieveW "who is the dean").doc_count
            = some docs.length
        ∧ (search_prospectus retrieveW "who is the dean").context
            = buildContext docs) :=
  ⟨by decide,
   (search_result_invariant retrieveW "who is the dean").2 (by decide)⟩

/-! ### Claim C8: the HTTP service boundary -/

theorem dropWhile_dropWhile {α : Type} (p : α → Bool) :
    ∀ l : List α, (l.dropWhile p).dropWhile p = l.dropWhile p := by
  intro l
  induction l with
  | nil => simp
  | cons a t ih =>
    by_cases h : p a
    · simp only [List.dropWhile_cons, h, if_true]
      exact ih
    · simp [List.dropWhile_cons, h]

theorem rev_dropWhile_rev_isPre {α : Type} (p : α → Bool) (x : List α) :
    ((x.reverse.dropWhile p).reverse) <+: x := by
  rcases List.dropWhile_suffix (l := x.reverse) p with ⟨t, ht⟩
  exact ⟨t.reverse, by rw [← List.reverse_append, ht, List.reverse_reverse]⟩

theorem dropWhile_eq_self_of_isPre {α : Type} (p : α → Bool) :
    ∀ (y x : List α), y <+: x → x.dropWhile p = x → y.dropWhile p = y := by
  intro y x hp hx
  cases y with
  | nil => simp
  | cons a y' =>
    rcases hp with ⟨t, ht⟩
    rw [List.cons_append] at ht
    subst ht
    have hpa : p a = false := by
      cases hval : p a
      · rfl
      · rw [List.dropWhile_cons, hval, if_pos rfl] at hx
        have hlen := congrArg List.length hx
        rw [List.length_cons] at hlen
        have hle :=
          List.Sublist.length_le (List.dropWhile_sublist (l := y' ++ t) p)
        omega
    rw [List.dropWhile_cons, hpa]
    simp

theorem pyTrim_idem (s : String) : pyTrim (pyTrim s) = pyTrim s := by
  have hA : (s.data.dropWhile Char.isWhitespace).dropWhile Char.isWhitespace
      = s.data.dropWhile Char.isWhitespace := dropWhile_dropWhile _ _
  have hT : ((((s.data.dropWhile Char.isWhitespace).reverse.dropWhile
      Char.isWhitespace).reverse)).dropWhile Char.isWhitespace
      = (((s.data.dropWhile Char.isWhitespace).reverse.dropWhile
          Char.isWhitespace).reverse) :=
    dropWhile_eq_self_of_isPre _ _ _ (rev_dropWhile_rev_isPre _ _) hA
  show String.mk _ = String.mk _
  refine congrArg String.mk ?_
  show ((((((s.data.dropWhile Char.isWhitespace).reverse.dropWhile
      Char.isWhitespace).reverse)).dropWhile
        Char.isWhitespace).reverse.dropWhile Char.isWhitespace).reverse
      = (((s.data.dropWhile Char.isWhitespace).reverse.dropWhile
          Char.isWhitespace).reverse)
  rw [hT, List.reverse_reverse, dropWhile_dropWhile]

/-- C8 counterexample: with a well-formed in-domain message and an agent
that raises, the service returns a success response carrying the fixed
apology, not a server-error response; so the claim that every internal
failure on a well-formed message yields a server-error response is false
on the code. -/
theorem internal_failure_success_response :
    serviceOf agentFail "admission requirements"
      = HttpResponse.success
          "I encountered an error while processing your question. Please try rephrasing."
          "success"
    ∧ ∀ (c : Nat) (d : String),
        serviceOf agentFail "admission requirements"
          ≠ HttpResponse.serverError c d := by
  refine ⟨by decide, ?_⟩
  intro c d h
  have h1 : serviceOf agentFail "admission requirements"
      = HttpResponse.success agentErrorMsg "success" := by decide
  rw [h1] at h
  exact HttpResponse.noConfusion h

/-- C8 amended: malformed input (length outside 1 to 500, or empty after
trimming) yields a client-error response; an exception escaping the
`process` callable itself is mapped by the endpoint to a server-error
response with the generic detail text; but a failure raised by the agent
while processing a well-formed in-domain message is caught inside
`process_query` and surfaces as a success response carrying the fixed
apology message, not as a server error. -/
theorem service_boundary_amended :
    (∀ (process : String → Except PyErr String) (msg : String),
        (msg.length < 1 ∨ msg.length > 500 ∨ pyTrim msg = "") →
        ∃ c d, chat_endpoint process msg = HttpResponse.clientError c d)
    ∧ (∀ (process : String → Except PyErr String) (msg m : String),
        1 ≤ msg.length → msg.length ≤ 500 →
        pyTrim msg ≠ "" →
        process (pyTrim msg) = Except.error (PyErr.other m) →
        chat_endpoint process msg
          = HttpResponse.serverError 500
              ("An error occurred while processing your request: " ++ m))
    ∧ (∀ (agent : String → Except PyErr String) (msg : String) (err : PyErr),
        1 ≤ msg.length → msg.length ≤ 500 →
        pyTrim msg ≠ "" →
        is_uet_related (pyTrim msg) = true →
        agent (pyTrim msg) = Except.error err →
        serviceOf agent msg
          = HttpResponse.success agentErrorMsg "success") := by
  refine ⟨?_, ?_, ?_⟩
  · intro process msg h
    by_cases hl : msg.length < 1 ∨ msg.length > 500
    · refine ⟨422, "validation error", ?_⟩
      simp only [chat_endpoint]
      rw [if_pos hl]
    · have htrim : pyTrim msg = "" := by tauto
      refine ⟨422, "Message cannot be empty", ?_⟩
      simp only [chat_endpoint]
      rw [if_neg hl, if_pos htrim]
  · intro process msg m h1 h2 h3 hproc
    have hno : ¬ (msg.length < 1 ∨ msg.length > 500) := by omega
    simp only [chat_endpoint]
    rw [if_neg hno, if_neg h3, hproc]
  · intro agent msg err h1 h2 h3 hdom herr
    have hno : ¬ (msg.length < 1 ∨ msg.length > 500) := by omega
    have hpq : process_query agent (pyTrim msg) = agentErrorMsg := by
      simp only [process_query, pyTrim_idem]
      rw [if_neg h3, hdom]
      simp only [Bool.not_true]
      rw [if_neg Bool.false_ne_true, herr]
    simp only [serviceOf, chat_endpoint]
    rw [if_neg hno, if_neg h3]
    show HttpResponse.success (process_query agent (pyTrim msg)) "success"
      = HttpResponse.success agentErrorMsg "success"
    rw [hpq]

/-- Witness instantiating the three parts of the amended C8 statement. -/
theorem service_boundary_amended_witness :
    (∃ c d, chat_endpoint (fun m => Except.ok m) ""
        = HttpResponse.clientError c d)
    ∧ chat_endpoint (fun _ => Except.error (PyErr.other "boom")) "hello uet"
        = HttpResponse.serverError 500
            ("An error occurred while processing your request: " ++ "boom")
    ∧ serviceOf agentFail "admission requirements"
        = HttpResponse.success agentErrorMsg "success" :=
  ⟨service_boundary_amended.1 (fun m => Except.ok m) ""
    (Or.inl (by decide)),
   service_boundary_amended.2.1 (fun _ => Except.error (PyErr.other "boom"))
    "hello uet" "boom" (by decide) (by decide) (by decide) rfl,
   service_boundary_amended.2.2 agentFail "admission requirements"
    (PyErr.other "boom") (by decide) (by decide) (by decide) (by decide) rfl⟩
